import Mathlib

set_option autoImplicit false

/-!
Verification of `src/raftstore/store/engine.rs`: a snapshot-consistent
read/iteration layer over a column-family-partitioned key-value store
(RocksDB), plus typed accessors.

Keys and values are byte strings, modelled as `List Nat` with the
lexicographic order (RocksDB's default bytewise comparator).  The
underlying engine (RocksDB itself) is an external collaborator specified
only at its interface boundary; its state is modelled as a sorted
association list per column family, and its snapshot/iterator semantics
are modelled from the spec's interface description.  Every function of
`engine.rs` itself is translated directly from the source.
-/

/-- A byte string (key or value).  Ordered lexicographically, matching the
engine's default bytewise comparator. -/
abbrev Bytes := List Nat

/-- Errors of the `raftstore::Result` type as used in `engine.rs`:
`box_err!` messages, unknown column family, and codec errors. -/
inductive EngineError
  | other (msg : String)
  | cfNotFound (cf : String)
  | proto (msg : String)
  deriving DecidableEq, Repr

/-- `raftstore::Result<T>`. -/
abbrev EResult (α : Type) := Except EngineError α

/-- Modelled from the spec: the contents of one column family of the
underlying engine — a finite key/value map, represented as an association
list that the engine keeps sorted by key (ascending bytewise order). -/
abbrev KVList := List (Bytes × Bytes)

/-- Sortedness invariant of an engine column family: keys strictly
ascending in bytewise (lexicographic) order. -/
def KVSorted (l : KVList) : Prop := l.Pairwise (fun a b => a.1 < b.1)

/-- Modelled from the spec: engine point lookup on one column family
(`DB::get` at the interface boundary). -/
def kvGet : KVList → Bytes → Option Bytes
  | [], _ => none
  | (k', v) :: rest, k => if k = k' then some v else kvGet rest k

/-- Modelled from the spec: engine raw put on one column family
(`Writable::put` at the interface boundary), keeping the list sorted. -/
def kvPut : KVList → Bytes → Bytes → KVList
  | [], k, v => [(k, v)]
  | (k', v') :: rest, k, v =>
    if k < k' then (k, v) :: (k', v') :: rest
    else if k = k' then (k, v) :: rest
    else (k', v') :: kvPut rest k v

/-- Modelled from the spec: engine raw delete on one column family
(`Writable::delete` at the interface boundary); deleting an absent key is
not an error. -/
def kvDel : KVList → Bytes → KVList
  | [], _ => []
  | (k', v') :: rest, k => if k = k' then rest else (k', v') :: kvDel rest k

/-- Modelled from the spec: the underlying engine's live state (`DB`):
a default keyspace plus named column families. -/
structure RocksDB where
  default_cf : KVList
  cfs : List (String × KVList)
  deriving DecidableEq, Repr

/-- Modelled from the spec: the column-family resolver
(`util::rocksdb::get_cf_handle`): maps a name to an opaque handle
(modelled as the validated name, since contents are resolved at read
time), unknown names yield an error rather than a default. -/
def get_cf_handle (db : RocksDB) (cf : String) : EResult String :=
  if (db.cfs.find? (fun p => p.1 = cf)).isSome then .ok cf
  else .error (.cfNotFound cf)

/-- The data of a named column family (empty for an unresolved name;
reads always go through a validated handle). -/
def RocksDB.cfData (db : RocksDB) (handle : String) : KVList :=
  (((db.cfs.find? (fun p => p.1 = handle))).map Prod.snd).getD []

/-- `DB::put` on the live handle (default keyspace); state-passing form of
the engine's interior mutability. -/
def RocksDB.put (db : RocksDB) (k v : Bytes) : RocksDB :=
  { db with default_cf := kvPut db.default_cf k v }

/-- `DB::delete` on the live handle (default keyspace). -/
def RocksDB.delete (db : RocksDB) (k : Bytes) : RocksDB :=
  { db with default_cf := kvDel db.default_cf k }

/-- `Snapshot` (engine.rs:28-31): holds the store handle and an opaque
point-in-time marker.  Modelled from the spec at the engine's interface
boundary, the marker *is* the store state captured at creation: reads
issued with the marker (`set_snapshot`) observe exactly that state. -/
structure Snapshot where
  db : RocksDB
  deriving DecidableEq, Repr

/-- `Snapshot::new` (engine.rs:60-67): captures the store's current state. -/
def Snapshot.new (db : RocksDB) : Snapshot := ⟨db⟩

/-- `SeekMode` (engine.rs:160-164). -/
inductive SeekMode
  | TotalOrder
  | Prefix
  deriving DecidableEq, Repr

/-- `IterOption` (engine.rs:166-171). -/
structure IterOption where
  upper_bound : Option Bytes
  prefix_same_as_start : Bool
  fill_cache : Bool
  seek_mode : SeekMode
  deriving DecidableEq, Repr

/-- `IterOption::new` (engine.rs:174-181). -/
def IterOption.new (upper_bound : Option Bytes) (fill_cache : Bool) : IterOption :=
  { upper_bound := upper_bound
    prefix_same_as_start := false
    fill_cache := fill_cache
    seek_mode := .TotalOrder }

/-- `IterOption::use_prefix_seek` (engine.rs:184-187). -/
def IterOption.use_prefix_seek (o : IterOption) : IterOption :=
  { o with seek_mode := .Prefix }

/-- `IterOption::total_order_seek_used` (engine.rs:190-192). -/
def IterOption.total_order_seek_used (o : IterOption) : Bool :=
  o.seek_mode = .TotalOrder

/-- `IterOption::set_upper_bound` (engine.rs:200-203). -/
def IterOption.set_upper_bound (o : IterOption) (bound : Bytes) : IterOption :=
  { o with upper_bound := some bound }

/-- `IterOption::set_prefix_same_as_start` (engine.rs:206-209). -/
def IterOption.set_prefix_same_as_start (o : IterOption) (enable : Bool) : IterOption :=
  { o with prefix_same_as_start := enable }

/-- `impl Default for IterOption` (engine.rs:226-235). -/
def IterOption.default : IterOption :=
  { upper_bound := none
    prefix_same_as_start := false
    fill_cache := true
    seek_mode := .TotalOrder }

/-- RocksDB `ReadOptions`, at the interface boundary: the fields
`engine.rs` sets.  `snapshot` holds the captured state when reads are to
be served from a point-in-time marker. -/
structure ReadOptions where
  fill_cache : Bool
  total_order_seek : Bool
  prefix_same_as_start : Bool
  iterate_upper_bound : Option Bytes
  snapshot : Option RocksDB
  deriving DecidableEq, Repr

/-- `ReadOptions::new`: engine defaults (cache-filling, no flags, no
bound, no snapshot). -/
def ReadOptions.new : ReadOptions :=
  { fill_cache := true
    total_order_seek := false
    prefix_same_as_start := false
    iterate_upper_bound := none
    snapshot := none }

/-- `ReadOptions::set_snapshot`. -/
def ReadOptions.set_snapshot (o : ReadOptions) (s : Snapshot) : ReadOptions :=
  { o with snapshot := some s.db }

/-- `IterOption::build_read_opts` (engine.rs:211-223), translated
branch-for-branch from the source. -/
def IterOption.build_read_opts (o : IterOption) : ReadOptions :=
  let opts := ReadOptions.new
  let opts := { opts with fill_cache := o.fill_cache }
  let opts :=
    if o.total_order_seek_used then { opts with total_order_seek := true }
    else if o.prefix_same_as_start then { opts with prefix_same_as_start := true }
    else opts
  match o.upper_bound with
  | some key => { opts with iterate_upper_bound := some key }
  | none => opts

/-- RocksDB `DBIterator`, modelled from the spec at the interface
boundary: a cursor over the sorted entries visible to it (the source
keyspace restricted by the read options' exclusive upper bound).
`pos` is the cursor position (`pos ≥ entries.length` means invalid);
`failAfter = some n` models an engine-level advance failure when stepping
from position `n` (`next` then reports invalid, surfacing no error). -/
structure DBIterator where
  entries : List (Bytes × Bytes)
  pos : Nat
  failAfter : Option Nat
  deriving DecidableEq, Repr

/-- Modelled from the spec: constructing an engine iterator over a
keyspace under given read options — the visible entries are those below
the exclusive upper bound, in ascending key order; the engine itself
enforces the bound.  A freshly constructed healthy iterator has no
pending advance failure. -/
def DBIterator.ofOpts (data : KVList) (opts : ReadOptions) : DBIterator :=
  { entries :=
      match opts.iterate_upper_bound with
      | some ub => data.filter (fun e => e.1 < ub)
      | none => data
    pos := 0
    failAfter := none }

/-- `DBIterator::seek`: position at the first visible entry with key ≥
the target (total-order mode). -/
def DBIterator.seek (it : DBIterator) (k : Bytes) : DBIterator :=
  { it with pos := it.entries.findIdx (fun e => decide (k ≤ e.1)) }

/-- `DBIterator::valid`. -/
def DBIterator.valid (it : DBIterator) : Bool :=
  it.pos < it.entries.length

/-- `DBIterator::key` (meaningful only while valid). -/
def DBIterator.key (it : DBIterator) : Bytes :=
  ((it.entries.get? it.pos).map Prod.fst).getD []

/-- `DBIterator::value` (meaningful only while valid). -/
def DBIterator.value (it : DBIterator) : Bytes :=
  ((it.entries.get? it.pos).map Prod.snd).getD []

/-- `DBIterator::next`: advance and report whether the cursor is still
valid.  An engine-level advance failure (`failAfter`) invalidates the
cursor and reports `false`, exactly like exhaustion — it is not an
error value. -/
def DBIterator.next (it : DBIterator) : DBIterator × Bool :=
  if it.failAfter = some it.pos then
    ({ it with pos := it.entries.length }, false)
  else
    let it' : DBIterator := { it with pos := it.pos + 1 }
    (it', it'.valid)

/-- `DBIterator::kv` (rust-rocksdb): the current pair while valid. -/
def DBIterator.kv (it : DBIterator) : Option (Bytes × Bytes) :=
  if it.valid then some (it.key, it.value) else none

/-- The `Peekable` trait's required primitives (engine.rs:101-103). -/
class Peekable (α : Type) where
  get_value : α → Bytes → EResult (Option Bytes)
  get_value_cf : α → String → Bytes → EResult (Option Bytes)

export Peekable (get_value get_value_cf)

/-- A protobuf message type at the interface boundary: `M::new`,
`Message::write_to_bytes`, `Message::merge_from_bytes` (which consumes a
fresh `M::new` receiver in `get_msg`). -/
structure ProtoMsg (M : Type) where
  mk_new : M
  write_to_bytes : M → EResult Bytes
  merge_from_bytes : M → Bytes → EResult M

/-- `Peekable::get_msg` default method (engine.rs:105-118). -/
def get_msg {α M : Type} [Peekable α] (C : ProtoMsg M) (x : α) (key : Bytes) :
    EResult (Option M) := do
  let value ← get_value x key
  match value with
  | none => return none
  | some v =>
    let m ← C.merge_from_bytes C.mk_new v
    return some m

/-- `Peekable::get_msg_cf` default method (engine.rs:120-133). -/
def get_msg_cf {α M : Type} [Peekable α] (C : ProtoMsg M) (x : α) (cf : String)
    (key : Bytes) : EResult (Option M) := do
  let value ← get_value_cf x cf key
  match value with
  | none => return none
  | some v =>
    let m ← C.merge_from_bytes C.mk_new v
    return some m

/-- `byteorder::BigEndian::read_u64`: big-endian value of an 8-byte
buffer. -/
def bigEndianReadU64 (v : Bytes) : Nat :=
  v.foldl (fun acc b => acc * 256 + b) 0

/-- `byteorder::BigEndian::write_u64` into an 8-byte buffer (the `u64`
argument satisfies `n < 2^64`). -/
def bigEndianWriteU64 (n : Nat) : Bytes :=
  [n / 2 ^ 56 % 256, n / 2 ^ 48 % 256, n / 2 ^ 40 % 256, n / 2 ^ 32 % 256,
   n / 2 ^ 24 % 256, n / 2 ^ 16 % 256, n / 2 ^ 8 % 256, n % 256]

/-- `Peekable::get_u64` default method (engine.rs:135-149). -/
def get_u64 {α : Type} [Peekable α] (x : α) (key : Bytes) : EResult (Option Nat) := do
  let value ← get_value x key
  match value with
  | none => return none
  | some v =>
    if v.length ≠ 8 then
      throw (.other ("need 8 bytes, but only got " ++ toString v.length))
    else
      return some (bigEndianReadU64 v)

/-- Rust's `n as i64` on a `u64` bit pattern (two's complement). -/
def u64AsI64 (n : Nat) : Int :=
  if n < 2 ^ 63 then (n : Int) else (n : Int) - 2 ^ 64

/-- `Peekable::get_i64` default method (engine.rs:151-157). -/
def get_i64 {α : Type} [Peekable α] (x : α) (key : Bytes) : EResult (Option Int) := do
  let r ← get_u64 x key
  match r with
  | none => return none
  | some n => return some (u64AsI64 n)

/-- Modelled from the spec: `DB::get_opt` — a point lookup served from
the read options' snapshot state when one is set, else from the live
state. -/
def dbGetOpt (db : RocksDB) (key : Bytes) (opt : ReadOptions) :
    EResult (Option Bytes) :=
  .ok (kvGet (opt.snapshot.getD db).default_cf key)

/-- Modelled from the spec: `DB::get_cf_opt` — like `dbGetOpt` on the
column family named by the (validated) handle. -/
def dbGetCfOpt (db : RocksDB) (handle : String) (key : Bytes)
    (opt : ReadOptions) : EResult (Option Bytes) :=
  .ok (kvGet ((opt.snapshot.getD db).cfData handle) key)

/-- Modelled from the spec: `DB::iter_opt` / `DBIterator::new` — an
iterator over the default keyspace of the snapshot state when the read
options carry one, else of the live state. -/
def dbIterOpt (db : RocksDB) (opt : ReadOptions) : DBIterator :=
  DBIterator.ofOpts (opt.snapshot.getD db).default_cf opt

/-- Modelled from the spec: `DBIterator::new_cf` — like `dbIterOpt` on
the column family named by the (validated) handle. -/
def dbIterCfOpt (db : RocksDB) (handle : String) (opt : ReadOptions) :
    DBIterator :=
  DBIterator.ofOpts ((opt.snapshot.getD db).cfData handle) opt

/-- The `Iterable` trait's required primitives (engine.rs:238-240). -/
class Iterable (α : Type) where
  new_iterator : α → IterOption → DBIterator
  new_iterator_cf : α → String → IterOption → EResult DBIterator

/-- The loop of `scan_impl` (engine.rs:288-296).  The Rust callback is an
`FnMut` closure; its captured mutable state is threaded explicitly as
`s : σ`, so `f` consumes a state and returns the continuation flag with
the updated state, and the loop returns the final state in place of
`Ok(())`. -/
def scanLoop {σ : Type} (it : DBIterator)
    (f : σ → Bytes → Bytes → EResult (Bool × σ)) (s : σ) : EResult σ :=
  if _h : it.valid then
    match f s it.key it.value with
    | .error e => .error e
    | .ok (r, s') =>
      let p := it.next
      if r && p.2 then scanLoop p.1 f s' else .ok s'
  else .ok s
termination_by it.entries.length - it.pos
decreasing_by
  simp only [DBIterator.next, DBIterator.valid] at *
  split at *
  · simp_all
  · simp_all
    omega

/-- `scan_impl` (engine.rs:283-297): seek to `start_key`, then loop. -/
def scan_impl {σ : Type} (it : DBIterator) (start_key : Bytes)
    (f : σ → Bytes → Bytes → EResult (Bool × σ)) (s : σ) : EResult σ :=
  scanLoop (it.seek start_key) f s

/-- `Iterable::scan` default method (engine.rs:244-250). -/
def scan {α σ : Type} [Iterable α] (x : α) (start_key end_key : Bytes)
    (fill_cache : Bool) (f : σ → Bytes → Bytes → EResult (Bool × σ))
    (s : σ) : EResult σ :=
  let iter_opt := IterOption.new (some end_key) fill_cache
  scan_impl (Iterable.new_iterator x iter_opt) start_key f s

/-- `Iterable::scan_cf` default method (engine.rs:253-266). -/
def scan_cf {α σ : Type} [Iterable α] (x : α) (cf : String)
    (start_key end_key : Bytes) (fill_cache : Bool)
    (f : σ → Bytes → Bytes → EResult (Bool × σ)) (s : σ) : EResult σ := do
  let iter_opt := IterOption.new (some end_key) fill_cache
  let it ← Iterable.new_iterator_cf x cf iter_opt
  scan_impl it start_key f s

/-- `Iterable::seek` default method (engine.rs:269-273). -/
def seek {α : Type} [Iterable α] (x : α) (key : Bytes) :
    EResult (Option (Bytes × Bytes)) :=
  let iter := (Iterable.new_iterator x IterOption.default).seek key
  .ok iter.kv

/-- `Iterable::seek_cf` default method (engine.rs:276-280). -/
def seek_cf {α : Type} [Iterable α] (x : α) (cf : String) (key : Bytes) :
    EResult (Option (Bytes × Bytes)) := do
  let iter ← Iterable.new_iterator_cf x cf IterOption.default
  .ok (iter.seek key).kv

/-- `impl Peekable for DB` (engine.rs:299-310). -/
instance instPeekableDB : Peekable RocksDB where
  get_value db key := .ok (kvGet db.default_cf key)
  get_value_cf db cf key := do
    let handle ← get_cf_handle db cf
    .ok (kvGet (db.cfData handle) key)

/-- `impl Iterable for DB` (engine.rs:312-322). -/
instance instIterableDB : Iterable RocksDB where
  new_iterator db iter_opt := dbIterOpt db iter_opt.build_read_opts
  new_iterator_cf db cf iter_opt := do
    let handle ← get_cf_handle db cf
    return dbIterCfOpt db handle iter_opt.build_read_opts

/-- `impl Peekable for Snapshot` (engine.rs:324-343). -/
instance instPeekableSnap : Peekable Snapshot where
  get_value s key :=
    let opt := ReadOptions.new.set_snapshot s
    dbGetOpt s.db key opt
  get_value_cf s cf key := do
    let handle ← get_cf_handle s.db cf
    let opt := ReadOptions.new.set_snapshot s
    dbGetCfOpt s.db handle key opt

/-- `impl Iterable for Snapshot` (engine.rs:345-362). -/
instance instIterableSnap : Iterable Snapshot where
  new_iterator s iter_opt :=
    let opt := (iter_opt.build_read_opts).set_snapshot s
    dbIterOpt s.db opt
  new_iterator_cf s cf iter_opt := do
    let handle ← get_cf_handle s.db cf
    let opt := (iter_opt.build_read_opts).set_snapshot s
    return dbIterCfOpt s.db handle opt

/-- Rust's `n as u64` on an `i64` (two's complement bit pattern). -/
def i64AsU64 (n : Int) : Nat := (n % 2 ^ 64).toNat

/-- `Mutable::put_msg` default method (engine.rs:365-369). -/
def put_msg {M : Type} (C : ProtoMsg M) (db : RocksDB) (key : Bytes)
    (m : M) : EResult RocksDB := do
  let value ← C.write_to_bytes m
  return db.put key value

/-- `Mutable::put_u64` default method (engine.rs:377-382). -/
def put_u64 (db : RocksDB) (key : Bytes) (n : Nat) : EResult RocksDB :=
  .ok (db.put key (bigEndianWriteU64 n))

/-- `Mutable::put_i64` default method (engine.rs:384-386). -/
def put_i64 (db : RocksDB) (key : Bytes) (n : Int) : EResult RocksDB :=
  put_u64 db key (i64AsU64 n)

/-- `Mutable::del` default method (engine.rs:388-391). -/
def del (db : RocksDB) (key : Bytes) : EResult RocksDB :=
  .ok (db.delete key)

/-! ### Helper lemmas about the engine's key/value map -/

theorem kvGet_put_self (l : KVList) (k v : Bytes) :
    kvGet (kvPut l k v) k = some v := by
  induction l with
  | nil => simp [kvPut, kvGet]
  | cons a rest ih =>
    obtain ⟨k', v'⟩ := a
    by_cases h1 : k < k'
    · simp [kvPut, kvGet, h1]
    · by_cases h2 : k = k'
      · simp [kvPut, kvGet, h1, h2]
      · simp [kvPut, kvGet, h1, h2, ih]

theorem kvGet_put_other (l : KVList) (k v k2 : Bytes) (hne : k2 ≠ k) :
    kvGet (kvPut l k v) k2 = kvGet l k2 := by
  induction l with
  | nil => simp [kvPut, kvGet, hne]
  | cons a rest ih =>
    obtain ⟨k', v'⟩ := a
    by_cases h1 : k < k'
    · simp [kvPut, kvGet, h1, hne]
    · by_cases h2 : k = k'
      · subst h2
        simp [kvPut, kvGet, h1, hne]
      · by_cases h3 : k2 = k'
        · simp [kvPut, kvGet, h1, h2, h3]
        · simp [kvPut, kvGet, h1, h2, h3, ih]

theorem kvGet_eq_none_of_not_mem (l : KVList) (k : Bytes)
    (h : k ∉ l.map Prod.fst) : kvGet l k = none := by
  induction l with
  | nil => simp [kvGet]
  | cons a rest ih =>
    simp only [List.map_cons, List.mem_cons] at h
    push_neg at h
    simp [kvGet, h.1, ih h.2]

theorem kvGet_del_self (l : KVList) (k : Bytes) (hs : KVSorted l) :
    kvGet (kvDel l k) k = none := by
  induction l with
  | nil => simp [kvDel, kvGet]
  | cons a rest ih =>
    obtain ⟨k', v'⟩ := a
    rw [KVSorted, List.pairwise_cons] at hs
    by_cases h1 : k = k'
    · subst h1
      simp only [kvDel, if_pos rfl]
      apply kvGet_eq_none_of_not_mem
      intro hmem
      obtain ⟨e, he, hke⟩ := List.mem_map.mp hmem
      exact absurd (hke ▸ hs.1 e he) (lt_irrefl k)
    · simp [kvDel, h1, kvGet, ih hs.2]

theorem kvGet_del_other (l : KVList) (k k2 : Bytes) (hne : k2 ≠ k) :
    kvGet (kvDel l k) k2 = kvGet l k2 := by
  induction l with
  | nil => simp [kvDel]
  | cons a rest ih =>
    obtain ⟨k', v'⟩ := a
    by_cases h1 : k = k'
    · subst h1
      simp [kvDel, kvGet, hne]
    · by_cases h2 : k2 = k'
      · simp [kvDel, kvGet, h1, h2]
      · simp [kvDel, kvGet, h1, h2, ih]

/-! ### C3: upper bound vs seek mode in `build_read_opts` -/

/-- The configuration refuting claim C3 as stated: total-order seek
requested, `prefix_same_as_start` enabled, and an upper bound set —
reachable through the source's own builder methods. -/
def cfgC3 : IterOption :=
  ((IterOption.new none true).set_prefix_same_as_start true).set_upper_bound [0]

/-- C3 counterexample: on `cfgC3` the option *is* using total-order seek
with `prefix_same_as_start`, and yet `build_read_opts` *does* apply the
configured upper bound — so the upper bound is not applied "only when the
option is not using total-order seek with prefix-same-as-start". -/
theorem build_read_opts_claim_cex :
    ¬ ((cfgC3.build_read_opts.iterate_upper_bound ≠ none) →
        ¬ (cfgC3.total_order_seek_used = true ∧
           cfgC3.prefix_same_as_start = true)) := by
  decide

/-- C3 (amended): `build_read_opts` applies the configured exclusive
upper bound to the read options whenever one is set, regardless of seek
mode, and it applies prefix-same-as-start only when total-order seek is
not requested. -/
theorem build_read_opts_bounds (o : IterOption) :
    o.build_read_opts.iterate_upper_bound = o.upper_bound
    ∧ o.build_read_opts.prefix_same_as_start
        = (!o.total_order_seek_used && o.prefix_same_as_start)
    ∧ o.build_read_opts.total_order_seek = o.total_order_seek_used
    ∧ o.build_read_opts.fill_cache = o.fill_cache := by
  unfold IterOption.build_read_opts IterOption.total_order_seek_used
  obtain ⟨ub, psas, fc, sm⟩ := o
  cases sm <;> cases psas <;> cases ub <;>
    simp [ReadOptions.new]

/-! ### C6: `get_u64` length checking -/

/-- C6: `get_u64` returns absent for an unwritten key; with a raw value
present it succeeds (big-endian decode) exactly when the value is 8
bytes, and any other length `N` yields the error
"need 8 bytes, but only got N". -/
theorem get_u64_length_check (db : RocksDB) (k : Bytes) :
    (kvGet db.default_cf k = none → get_u64 db k = .ok none)
    ∧ (∀ v, kvGet db.default_cf k = some v → v.length = 8 →
        get_u64 db k = .ok (some (bigEndianReadU64 v)))
    ∧ (∀ v, kvGet db.default_cf k = some v → v.length ≠ 8 →
        get_u64 db k
          = .error (.other ("need 8 bytes, but only got " ++ toString v.length))) := by
  refine ⟨fun h => ?_, fun v hv hl => ?_, fun v hv hl => ?_⟩ <;>
    simp_all [get_u64, Peekable.get_value, instPeekableDB, bind, Except.bind, throw,
      throwThe, MonadExceptOf.throw, pure, Except.pure]

/-- C6 witness: a concrete store where the key holds a 5-byte value and
the error reports the actual length 5, an 8-byte value decodes, and a
missing key is absent. -/
theorem get_u64_length_check_witness :
    get_u64 (RocksDB.mk [([1], [0, 0, 0, 0, 0, 0, 0, 9]), ([2], [1, 2, 3, 4, 5])] []) [2]
      = .error (.other "need 8 bytes, but only got 5") := by
  have h := (get_u64_length_check
    (RocksDB.mk [([1], [0, 0, 0, 0, 0, 0, 0, 9]), ([2], [1, 2, 3, 4, 5])] []) [2]).2.2
    [1, 2, 3, 4, 5] (by decide) (by decide)
  simpa using h

/-! ### C7: integer round trips -/

theorem bigEndianWriteU64_length (n : Nat) : (bigEndianWriteU64 n).length = 8 := by
  simp [bigEndianWriteU64]

theorem bigEndianRead_write (n : Nat) (h : n < 2 ^ 64) :
    bigEndianReadU64 (bigEndianWriteU64 n) = n := by
  simp only [bigEndianReadU64, bigEndianWriteU64, List.foldl]
  omega

theorem i64AsU64_lt (n : Int) : i64AsU64 n < 2 ^ 64 := by
  unfold i64AsU64
  omega

theorem u64AsI64_i64AsU64 (n : Int) (h1 : -2 ^ 63 ≤ n) (h2 : n < 2 ^ 63) :
    u64AsI64 (i64AsU64 n) = n := by
  unfold u64AsI64 i64AsU64
  split <;> omega

theorem get_u64_put (db : RocksDB) (k : Bytes) (n : Nat) (h : n < 2 ^ 64) :
    get_u64 (db.put k (bigEndianWriteU64 n)) k = .ok (some n) := by
  simp [get_u64, Peekable.get_value, instPeekableDB, RocksDB.put, kvGet_put_self,
    bind, Except.bind, pure, Except.pure, bigEndianWriteU64_length,
    bigEndianRead_write n h]

/-- C7: `put_i64` then `get_i64` round-trips (in particular for `-1`),
`put_u64` then `get_u64` round-trips, `put_i64 (-1)` read back through
`get_u64` gives the `u64::MAX` bit pattern, and `get_i64` preserves
`get_u64`'s absence and error behaviour. -/
theorem int_roundtrip (db : RocksDB) (k : Bytes) (n : Int) (m : Nat)
    (hn1 : -2 ^ 63 ≤ n) (hn2 : n < 2 ^ 63) (hm : m < 2 ^ 64) :
    ((put_i64 db k n).bind (fun db2 => get_i64 db2 k) = .ok (some n))
    ∧ ((put_u64 db k m).bind (fun db2 => get_u64 db2 k) = .ok (some m))
    ∧ ((put_i64 db k (-1)).bind (fun db2 => get_u64 db2 k)
        = .ok (some (2 ^ 64 - 1)))
    ∧ (kvGet db.default_cf k = none → get_i64 db k = .ok none)
    ∧ (∀ e, get_u64 db k = .error e → get_i64 db k = .error e) := by
  refine ⟨?_, ?_, ?_, fun h => ?_, fun e he => ?_⟩
  · have hlt := i64AsU64_lt n
    simp [put_i64, put_u64, Except.bind, get_i64, bind,
      get_u64_put db k (i64AsU64 n) hlt, pure, Except.pure,
      u64AsI64_i64AsU64 n hn1 hn2]
  · simp [put_u64, Except.bind, get_u64_put db k m hm]
  · have hval : i64AsU64 (-1) = 2 ^ 64 - 1 := by decide
    simp only [put_i64, put_u64, Except.bind, hval]
    exact get_u64_put db k (2 ^ 64 - 1) (by norm_num)
  · simp_all [get_i64, get_u64, Peekable.get_value, instPeekableDB, bind,
      Except.bind, pure, Except.pure]
  · simp_all [get_i64, bind, Except.bind]

/-- C7 witness: a concrete store, `n = -1`, `m = 1`. -/
theorem int_roundtrip_witness :
    (put_i64 (RocksDB.mk [] []) [7] (-1)).bind
        (fun db2 => get_i64 db2 [7]) = .ok (some (-1)) :=
  (int_roundtrip (RocksDB.mk [] []) [7] (-1) 1
    (by norm_num) (by norm_num) (by norm_num)).1

/-! ### C8: structured message round trip -/

/-- C8: `put_msg k v` (serialize, raw-put) followed by `get_msg k` yields
the value back, assuming serialization round-trips through parsing. -/
theorem put_get_msg_roundtrip {M : Type} (C : ProtoMsg M) (db : RocksDB)
    (k : Bytes) (m : M) (bs : Bytes)
    (h1 : C.write_to_bytes m = .ok bs)
    (h2 : C.merge_from_bytes C.mk_new bs = .ok m) :
    (put_msg C db k m).bind (fun db2 => get_msg C db2 k) = .ok (some m) := by
  simp [put_msg, get_msg, h1, Peekable.get_value, instPeekableDB,
    RocksDB.put, kvGet_put_self, h2, bind, Except.bind, pure, Except.pure]

/-- A concrete structured message type for witnesses: a natural number
serialized as a singleton byte list. -/
def natMsg : ProtoMsg Nat :=
  { mk_new := 0
    write_to_bytes := fun n => .ok [n]
    merge_from_bytes := fun _ bs => .ok (bs.headD 0) }

/-- C8 witness: round-tripping the message `5` through a concrete store. -/
theorem put_get_msg_roundtrip_witness :
    (put_msg natMsg (RocksDB.mk [] []) [3] 5).bind
        (fun db2 => get_msg natMsg db2 [3]) = .ok (some 5) :=
  put_get_msg_roundtrip natMsg (RocksDB.mk [] []) [3] 5 [5] rfl rfl

/-! ### C9: absence is not an error, parse failure is -/

/-- C9: a never-written key reads as `Ok(None)` through `get_value` and
`get_msg`, and a present value that fails to parse makes `get_msg`
propagate the parse error instead of returning absent. -/
theorem absent_and_parse_error {M : Type} (C : ProtoMsg M) (db : RocksDB)
    (k : Bytes) :
    (k ∉ db.default_cf.map Prod.fst →
      get_value db k = (.ok none : EResult (Option Bytes))
        ∧ get_msg C db k = .ok none)
    ∧ (∀ v e, kvGet db.default_cf k = some v →
        C.merge_from_bytes C.mk_new v = .error e →
        get_msg C db k = .error e) := by
  constructor
  · intro h
    have hg := kvGet_eq_none_of_not_mem db.default_cf k h
    constructor
    · simp [Peekable.get_value, instPeekableDB, hg]
    · simp [get_msg, Peekable.get_value, instPeekableDB, hg, bind,
        Except.bind, pure, Except.pure]
  · intro v e hv he
    simp [get_msg, Peekable.get_value, instPeekableDB, hv, he, bind,
      Except.bind]

/-- A codec whose parser always fails, for the C9 witness. -/
def failMsg : ProtoMsg Nat :=
  { mk_new := 0
    write_to_bytes := fun n => .ok [n]
    merge_from_bytes := fun _ _ => .error (.proto "bad") }

/-- C9 witness: a missing key is absent, and an unparseable value's error
is propagated, on a concrete store and codec. -/
theorem absent_and_parse_error_witness :
    get_msg failMsg (RocksDB.mk [] []) [9] = (.ok none : EResult (Option Nat)) :=
  ((absent_and_parse_error failMsg (RocksDB.mk [] []) [9]).1 (by decide)).2

/-! ### C1: snapshot isolation -/

/-- C1: a Snapshot created from the live handle serves every read
accessor (`get_value`, `get_value_cf`, `get_msg`, `get_u64`, `get_i64`)
from the state at its creation instant — so writes made before creation
are visible through it, later live `put`/`delete` writes are not, and the
same read on the live handle returns the new value. -/
theorem snapshot_isolation {M : Type} (C : ProtoMsg M) (db : RocksDB)
    (cf : String) (k v : Bytes) (hs : KVSorted db.default_cf) :
    (get_value (Snapshot.new db) k = get_value db k
      ∧ get_value_cf (Snapshot.new db) cf k = get_value_cf db cf k
      ∧ get_msg C (Snapshot.new db) k = get_msg C db k
      ∧ get_u64 (Snapshot.new db) k = get_u64 db k
      ∧ get_i64 (Snapshot.new db) k = get_i64 db k)
    ∧ (get_value (Snapshot.new db) k = .ok (kvGet db.default_cf k)
      ∧ get_value (db.put k v) k = .ok (some v)
      ∧ get_value (db.delete k) k = .ok none) := by
  have hsnap : ∀ k2 : Bytes,
      get_value (Snapshot.new db) k2 = (get_value db k2 : EResult (Option Bytes)) := by
    intro k2
    simp [Peekable.get_value, instPeekableSnap, instPeekableDB, dbGetOpt,
      ReadOptions.set_snapshot, ReadOptions.new, Snapshot.new]
  refine ⟨⟨hsnap k, ?_, ?_, ?_, ?_⟩, ?_, ?_, ?_⟩
  · simp [Peekable.get_value_cf, instPeekableSnap, instPeekableDB, dbGetCfOpt,
      ReadOptions.set_snapshot, ReadOptions.new, Snapshot.new, get_cf_handle,
      bind, Except.bind]
  · simp [get_msg, hsnap k]
  · simp [get_u64, hsnap k]
  · simp [get_i64, get_u64, hsnap k]
  · simp [Peekable.get_value, instPeekableSnap, dbGetOpt,
      ReadOptions.set_snapshot, ReadOptions.new, Snapshot.new]
  · simp [Peekable.get_value, instPeekableDB, RocksDB.put, kvGet_put_self]
  · simp [Peekable.get_value, instPeekableDB, RocksDB.delete,
      kvGet_del_self db.default_cf k hs]

/-- C1 witness: a concrete store where key `[1]` holds `[5]` at creation;
after a live `put` of `[9]` the Snapshot still reads `[5]` (first
conjunct instantiated) and the live handle reads `[9]`. -/
theorem snapshot_isolation_witness :
    get_value (Snapshot.new (RocksDB.mk [([1], [5])] [])) [1]
        = (.ok (some [5]) : EResult (Option Bytes))
      ∧ get_value ((RocksDB.mk [([1], [5])] []).put [1] [9]) [1]
        = (.ok (some [9]) : EResult (Option Bytes)) := by
  have h := snapshot_isolation natMsg (RocksDB.mk [([1], [5])] []) "c" [1] [9]
    (by simp [KVSorted])
  exact ⟨h.2.1.trans rfl, h.2.2.1⟩

/-! ### C2: the point-in-time marker is released exactly once -/

/-- An ownership event on one Snapshot allocation: `clone` models
`SyncSnapshot::clone` (engine.rs:54-56, incrementing the shared count),
`drop` models an owner being destroyed on any exit path. -/
inductive SnapEvent
  | clone
  | drop
  deriving DecidableEq, Repr

/-- The lifecycle state of one Snapshot allocation: how many owners are
alive and how many times the marker has been released back to the
store. -/
structure SnapLife where
  owners : Nat
  releases : Nat
  deriving DecidableEq, Repr

/-- Modelled from the spec: `Arc` reference counting combined with
`impl Drop for Snapshot` (engine.rs:92-98).  Destroying an owner
decrements the count; destroying the *last* owner runs the Snapshot's
destructor, which calls `release_snap` exactly there — that is the only
place `releases` grows. -/
def stepLife (s : SnapLife) : SnapEvent → SnapLife
  | .clone => { s with owners := s.owners + 1 }
  | .drop =>
    if s.owners = 1 then { owners := 0, releases := s.releases + 1 }
    else { s with owners := s.owners - 1 }

/-- Run a sequence of ownership events. -/
def runLife (s : SnapLife) : List SnapEvent → SnapLife
  | [] => s
  | e :: es => runLife (stepLife s e) es

/-- Rust's ownership discipline at the interface boundary: every event
(cloning a live owner, destroying a live owner) happens while at least
one owner is alive — the compiler rules out use after move/drop. -/
def traceValid : Nat → List SnapEvent → Bool
  | _, [] => true
  | n, .clone :: es => decide (0 < n) && traceValid (n + 1) es
  | n, .drop :: es => decide (0 < n) && traceValid (n - 1) es

/-- The lifecycle invariant: either the marker is still held (some owner
alive, no release yet) or it has been released exactly once (no owner
left). -/
def LifeInv (s : SnapLife) : Prop :=
  (1 ≤ s.owners ∧ s.releases = 0) ∨ (s.owners = 0 ∧ s.releases = 1)

theorem runLife_inv (es : List SnapEvent) :
    ∀ s : SnapLife, LifeInv s → traceValid s.owners es = true →
      LifeInv (runLife s es) := by
  induction es with
  | nil => intro s h _; exact h
  | cons e rest ih =>
    intro s h hv
    cases e with
    | clone =>
      simp only [traceValid, Bool.and_eq_true, decide_eq_true_eq] at hv
      refine ih (stepLife s .clone) ?_ ?_
      · rcases h with ⟨h1, h2⟩ | ⟨h1, h2⟩
        · exact Or.inl ⟨by simp [stepLife], by simp [stepLife, h2]⟩
        · omega
      · simpa [stepLife] using hv.2
    | drop =>
      simp only [traceValid, Bool.and_eq_true, decide_eq_true_eq] at hv
      refine ih (stepLife s .drop) ?_ ?_
      · rcases h with ⟨h1, h2⟩ | ⟨h1, h2⟩
        · by_cases ho : s.owners = 1
          · exact Or.inr ⟨by simp [stepLife, ho], by simp [stepLife, ho, h2]⟩
          · exact Or.inl ⟨by simp [stepLife, ho]; omega, by simp [stepLife, ho, h2]⟩
        · omega
      · by_cases ho : s.owners = 1 <;> simp [stepLife, ho] at hv ⊢ <;> tauto

/-- C2: starting from `Snapshot::new` (one owner, marker acquired, no
release), any sequence of owner clones and owner destructions that obeys
Rust's ownership discipline releases the marker at most once, releases it
exactly when the last owner is gone, and never releases it while an
owner is still alive. -/
theorem snapshot_release_exactly_once (es : List SnapEvent)
    (hv : traceValid 1 es = true) :
    (runLife ⟨1, 0⟩ es).releases ≤ 1
    ∧ ((runLife ⟨1, 0⟩ es).releases = 1 ↔ (runLife ⟨1, 0⟩ es).owners = 0) := by
  have h := runLife_inv es ⟨1, 0⟩ (Or.inl ⟨le_refl 1, rfl⟩) hv
  rcases h with ⟨h1, h2⟩ | ⟨h1, h2⟩ <;> constructor <;> omega

/-- C2 witness: one creation, two clones, three destructions — the
marker is released exactly once, at the last destruction. -/
theorem snapshot_release_exactly_once_witness :
    (runLife ⟨1, 0⟩ [.clone, .clone, .drop, .drop, .drop]).releases ≤ 1
    ∧ ((runLife ⟨1, 0⟩ [.clone, .clone, .drop, .drop, .drop]).releases = 1
        ↔ (runLife ⟨1, 0⟩ [.clone, .clone, .drop, .drop, .drop]).owners = 0) :=
  snapshot_release_exactly_once [.clone, .clone, .drop, .drop, .drop] (by decide)

/-! ### Helper lemmas for seek and scan -/

theorem find?_eq_get?_findIdx {α : Type} (p : α → Bool) (l : List α) :
    l.find? p = l.get? (l.findIdx p) := by
  induction l with
  | nil => simp
  | cons a as ih =>
    by_cases h : p a
    · simp [List.find?_cons, List.findIdx_cons, h]
    · simp [List.find?_cons, List.findIdx_cons, h, ih]

theorem seek_kv_eq_find? (l : KVList) (p0 : Nat) (fa : Option Nat) (k : Bytes) :
    ((DBIterator.mk l p0 fa).seek k).kv
      = l.find? (fun e => decide (k ≤ e.1)) := by
  rw [find?_eq_get?_findIdx]
  cases hfind : l.get? (l.findIdx (fun e => decide (k ≤ e.1))) with
  | some e =>
    have hlt : l.findIdx (fun e => decide (k ≤ e.1)) < l.length := by
      by_contra hge
      rw [List.get?_eq_getElem?, List.getElem?_eq_none (le_of_not_lt hge)] at hfind
      exact Option.noConfusion hfind
    have he : l[l.findIdx (fun e => decide (k ≤ e.1))] = e := by
      rw [List.get?_eq_getElem?, List.getElem?_eq_getElem hlt] at hfind
      exact Option.some.inj hfind
    simp [DBIterator.seek, DBIterator.kv, DBIterator.valid, DBIterator.key,
      DBIterator.value, hlt, hfind, he]
  | none =>
    have hge : l.length ≤ l.findIdx (fun e => decide (k ≤ e.1)) := by
      by_contra hlt
      rw [List.get?_eq_getElem?, List.getElem?_eq_getElem (lt_of_not_le hlt)] at hfind
      exact Option.noConfusion hfind
    simp [DBIterator.seek, DBIterator.kv, DBIterator.valid, not_lt.mpr hge]

theorem find?_ge_characterization (l : KVList) (k : Bytes) (hs : KVSorted l) :
    (∀ e, l.find? (fun x => decide (k ≤ x.1)) = some e →
      e ∈ l ∧ k ≤ e.1 ∧ ∀ x ∈ l, k ≤ x.1 → e.1 ≤ x.1)
    ∧ (l.find? (fun x => decide (k ≤ x.1)) = none → ∀ x ∈ l, x.1 < k) := by
  constructor
  · induction l with
    | nil => simp
    | cons a as ih =>
      intro e he
      rw [KVSorted, List.pairwise_cons] at hs
      by_cases h : k ≤ a.1
      · rw [List.find?_cons] at he
        simp only [h, decide_eq_true_eq] at he
        simp at he
        cases he
        refine ⟨List.mem_cons_self a as, h, ?_⟩
        intro x hx _
        rcases List.mem_cons.mp hx with hxa | hxas
        · exact hxa ▸ le_refl a.1
        · exact le_of_lt (hs.1 x hxas)
      · rw [List.find?_cons] at he
        simp [h] at he
        obtain ⟨hmem, hke, hmin⟩ := ih hs.2 e he
        refine ⟨List.mem_cons_of_mem a hmem, hke, ?_⟩
        intro x hx hkx
        rcases List.mem_cons.mp hx with hxa | hxas
        · exact absurd (hxa ▸ hkx) h
        · exact hmin x hxas hkx
  · intro hnone x hx
    rw [List.find?_eq_none] at hnone
    have := hnone x hx
    simp only [decide_eq_true_eq] at this
    exact lt_of_not_le this

theorem findIdx_eq_length_takeWhile {α : Type} (p : α → Bool) (l : List α) :
    l.findIdx p = (l.takeWhile (fun x => !p x)).length := by
  induction l with
  | nil => simp
  | cons a as ih =>
    by_cases h : p a <;>
      simp [List.findIdx_cons, List.takeWhile_cons, h, ih]

theorem drop_findIdx_eq_dropWhile {α : Type} (p : α → Bool) (l : List α) :
    l.drop (l.findIdx p) = l.dropWhile (fun x => !p x) := by
  rw [findIdx_eq_length_takeWhile]
  nth_rewrite 2 [← List.takeWhile_append_dropWhile (fun x => !p x) l]
  rw [List.drop_left]

theorem not_le_decide_flip (k : Bytes) :
    (fun e : Bytes × Bytes => !decide (k ≤ e.1))
      = (fun e : Bytes × Bytes => decide (e.1 < k)) := by
  funext e
  by_cases h : k ≤ e.1
  · simp [h, not_lt.mpr h]
  · simp [h, not_le.mp h]

theorem dropWhile_lt_eq_filter (l : KVList) (start : Bytes) (hs : KVSorted l) :
    l.dropWhile (fun e => decide (e.1 < start))
      = l.filter (fun e => decide (start ≤ e.1)) := by
  induction l with
  | nil => simp
  | cons a as ih =>
    rw [KVSorted, List.pairwise_cons] at hs
    by_cases h : a.1 < start
    · have h2 : ¬ start ≤ a.1 := not_le.mpr h
      simp [List.dropWhile_cons, List.filter_cons, h, h2, ih hs.2]
    · have h2 : start ≤ a.1 := not_lt.mp h
      have hall : List.filter (fun e => decide (start ≤ e.1)) as = as :=
        List.filter_eq_self.mpr
          (fun x hx => decide_eq_true (le_trans h2 (le_of_lt (hs.1 x hx))))
      simp [List.dropWhile_cons, List.filter_cons, h, h2, hall]

/-! ### C5: seek positions at the first key ≥ target -/

/-- C5: `seek(k)` uses a fresh cursor under the default configuration (no
upper bound, total-order seek, cache-filling) and returns the pair with
the smallest key ≥ `k`, or `None` when no key ≥ `k` exists; `seek_cf`
behaves the same within the named column family. -/
theorem seek_first_ge (db : RocksDB) (k : Bytes) (cf : String)
    (p : String × KVList) (hs : KVSorted db.default_cf)
    (hcf : db.cfs.find? (fun q => q.1 = cf) = some p) (hps : KVSorted p.2) :
    (IterOption.default.upper_bound = none
      ∧ IterOption.default.fill_cache = true
      ∧ IterOption.default.total_order_seek_used = true)
    ∧ (∀ k2 v2, seek db k = .ok (some (k2, v2)) →
        (k2, v2) ∈ db.default_cf ∧ k ≤ k2
          ∧ ∀ x ∈ db.default_cf, k ≤ x.1 → k2 ≤ x.1)
    ∧ (seek db k = .ok none → ∀ x ∈ db.default_cf, x.1 < k)
    ∧ (∀ k2 v2, seek_cf db cf k = .ok (some (k2, v2)) →
        (k2, v2) ∈ p.2 ∧ k ≤ k2 ∧ ∀ x ∈ p.2, k ≤ x.1 → k2 ≤ x.1)
    ∧ (seek_cf db cf k = .ok none → ∀ x ∈ p.2, x.1 < k) := by
  have hnew : Iterable.new_iterator db IterOption.default
      = DBIterator.mk db.default_cf 0 none := rfl
  have hseek : seek db k
      = .ok (db.default_cf.find? (fun e => decide (k ≤ e.1))) := by
    rw [seek, hnew, seek_kv_eq_find?]
  have hresolve : get_cf_handle db cf = .ok cf := by
    simp [get_cf_handle, hcf]
  have hcfd : db.cfData cf = p.2 := by
    simp [RocksDB.cfData, hcf]
  have hnewcf : Iterable.new_iterator_cf db cf IterOption.default
      = .ok (DBIterator.mk p.2 0 none) := by
    show (do
      let handle ← get_cf_handle db cf
      return dbIterCfOpt db handle IterOption.default.build_read_opts) = _
    rw [hresolve]
    show Except.ok (dbIterCfOpt db cf IterOption.default.build_read_opts) = _
    rw [dbIterCfOpt]
    show Except.ok (DBIterator.ofOpts (db.cfData cf) _) = _
    rw [hcfd]
    rfl
  have hseekcf : seek_cf db cf k
      = .ok (p.2.find? (fun e => decide (k ≤ e.1))) := by
    rw [seek_cf]
    show (do
      let iter ← Iterable.new_iterator_cf db cf IterOption.default
      Except.ok (iter.seek k).kv) = _
    rw [hnewcf]
    show Except.ok ((DBIterator.mk p.2 0 none).seek k).kv = _
    rw [seek_kv_eq_find?]
  refine ⟨⟨rfl, rfl, rfl⟩, ?_, ?_, ?_, ?_⟩
  · intro k2 v2 h
    rw [hseek] at h
    exact (find?_ge_characterization db.default_cf k hs).1 (k2, v2)
      (Except.ok.inj h)
  · intro h
    rw [hseek] at h
    exact (find?_ge_characterization db.default_cf k hs).2 (Except.ok.inj h)
  · intro k2 v2 h
    rw [hseekcf] at h
    exact (find?_ge_characterization p.2 k hps).1 (k2, v2) (Except.ok.inj h)
  · intro h
    rw [hseekcf] at h
    exact (find?_ge_characterization p.2 k hps).2 (Except.ok.inj h)

/-- C5 witness: on the store `{[1]↦[2], [3]↦[4]}` with column family
"c" = `{[5]↦[6]}`, seeking `[2]` lands on `[3]`, the smallest key ≥
`[2]`. -/
theorem seek_first_ge_witness :
    (([3], ([4] : Bytes)) ∈ ([([1], [2]), ([3], [4])] : KVList))
    ∧ ([2] : Bytes) ≤ [3]
    ∧ ∀ x ∈ ([([1], [2]), ([3], [4])] : KVList), [2] ≤ x.1 → [3] ≤ x.1 :=
  (seek_first_ge (RocksDB.mk [([1], [2]), ([3], [4])] [("c", [([5], [6])])])
    [2] "c" ("c", [([5], [6])])
    (by simp [KVSorted]; decide) (by simp) (by simp [KVSorted])).2.1
    [3] [4] rfl

/-! ### C4: scan visits exactly the half-open range in order -/

/-- A `FnMut` callback that records each visited pair and signals
continuation via `cont` — the observer used to state what `scan`
visits. -/
def collectCb (cont : Bytes → Bytes → Bool)
    (s : List (Bytes × Bytes)) (k v : Bytes) :
    EResult (Bool × List (Bytes × Bytes)) :=
  .ok (cont k v, s ++ [(k, v)])

/-- The pairs a run of the loop records from a list of remaining
entries: each entry in order, stopping right after the first one on
which `cont` signals false. -/
def visitUpTo (cont : Bytes → Bytes → Bool) :
    List (Bytes × Bytes) → List (Bytes × Bytes)
  | [] => []
  | e :: rest => e :: (if cont e.1 e.2 then visitUpTo cont rest else [])

theorem scanLoop_collect (cont : Bytes → Bytes → Bool)
    (l : List (Bytes × Bytes)) :
    ∀ (n pos : Nat) (acc : List (Bytes × Bytes)), l.length - pos ≤ n →
      scanLoop (DBIterator.mk l pos none) (collectCb cont) acc
        = .ok (acc ++ visitUpTo cont (l.drop pos)) := by
  intro n
  induction n with
  | zero =>
    intro pos acc h
    have hge : l.length ≤ pos := by omega
    rw [scanLoop]
    simp [DBIterator.valid, not_lt.mpr hge, List.drop_eq_nil_iff.mpr hge,
      visitUpTo]
  | succ n ih =>
    intro pos acc h
    rw [scanLoop]
    by_cases hlt : pos < l.length
    · have hvalid : (DBIterator.mk l pos none).valid = true := by
        simp [DBIterator.valid, hlt]
      rw [dif_pos hvalid]
      have hkey : (DBIterator.mk l pos none).key = l[pos].1 := by
        simp [DBIterator.key, List.get?_eq_getElem?,
          List.getElem?_eq_getElem hlt]
      have hval : (DBIterator.mk l pos none).value = l[pos].2 := by
        simp [DBIterator.value, List.get?_eq_getElem?,
          List.getElem?_eq_getElem hlt]
      have hdrop : l.drop pos = l[pos] :: l.drop (pos + 1) :=
        List.drop_eq_getElem_cons hlt
      have hnext : (DBIterator.mk l pos none).next
          = (DBIterator.mk l (pos + 1) none, decide (pos + 1 < l.length)) := by
        simp [DBIterator.next, DBIterator.valid]
      rw [hkey, hval]
      show (match collectCb cont acc l[pos].1 l[pos].2 with
        | .error e => .error e
        | .ok (r, s') =>
          let p := (DBIterator.mk l pos none).next
          if r && p.2 then scanLoop p.1 (collectCb cont) s' else .ok s')
        = Except.ok (acc ++ visitUpTo cont (l.drop pos))
      rw [collectCb]
      show (let p := (DBIterator.mk l pos none).next
        if cont l[pos].1 l[pos].2 && p.2 then
          scanLoop p.1 (collectCb cont) (acc ++ [(l[pos].1, l[pos].2)])
        else .ok (acc ++ [(l[pos].1, l[pos].2)]))
        = Except.ok (acc ++ visitUpTo cont (l.drop pos))
      rw [hnext]
      by_cases hcont : cont l[pos].1 l[pos].2
      · by_cases hmore : pos + 1 < l.length
        · have hrec := ih (pos + 1) (acc ++ [(l[pos].1, l[pos].2)]) (by omega)
          simp only [hcont, hmore, decide_eq_true_eq, if_pos, Bool.and_self,
            decide_eq_true hmore, Bool.true_and, if_true]
          rw [hrec, hdrop, visitUpTo]
          simp [hcont]
        · have hdrop2 : l.drop (pos + 1) = [] :=
            List.drop_eq_nil_iff.mpr (by omega)
          simp only [hcont, decide_eq_true_eq, Bool.true_and]
          rw [if_neg (by simpa using hmore)]
          rw [hdrop, visitUpTo]
          simp [hcont, hdrop2, visitUpTo]
      · rw [if_neg (by simp [hcont])]
        rw [hdrop, visitUpTo]
        simp [hcont]
    · have hge : l.length ≤ pos := le_of_not_lt hlt
      simp [DBIterator.valid, not_lt.mpr hge, List.drop_eq_nil_iff.mpr hge,
        visitUpTo]

theorem drop_findIdx_ge (F : KVList) (start : Bytes) (hF : KVSorted F) :
    F.drop (F.findIdx (fun e => decide (start ≤ e.1)))
      = F.filter (fun e => decide (start ≤ e.1)) := by
  rw [drop_findIdx_eq_dropWhile]
  have hflip : (fun x : Bytes × Bytes =>
        !(fun e : Bytes × Bytes => decide (start ≤ e.1)) x)
      = (fun e : Bytes × Bytes => decide (e.1 < start)) := by
    funext e
    by_cases h : start ≤ e.1
    · simp [h, not_lt.mpr h]
    · simp [h, not_le.mp h]
  rw [hflip, dropWhile_lt_eq_filter F start hF]

theorem scanLoop_seek_collect (F : KVList) (start_key : Bytes)
    (cont : Bytes → Bytes → Bool) (hF : KVSorted F) :
    scanLoop ((DBIterator.mk F 0 none).seek start_key) (collectCb cont) []
      = .ok (visitUpTo cont (F.filter (fun e => decide (start_key ≤ e.1)))) := by
  show scanLoop
      (DBIterator.mk F (F.findIdx (fun e => decide (start_key ≤ e.1))) none)
      (collectCb cont) [] = _
  rw [scanLoop_collect cont F F.length
      (F.findIdx (fun e => decide (start_key ≤ e.1))) [] (by omega)]
  rw [drop_findIdx_ge F start_key hF]
  simp

/-- C4: `scan(start, end, fill_cache, f)` visits exactly the pairs in the
half-open range `[start, end)` in ascending key order, stopping right
after the first pair on which the callback signals false; the bound `end`
is enforced by configuring the cursor's exclusive upper bound (first
conjunct); `scan_cf` behaves identically on the named column family, and
a Snapshot scans the same way over its captured state. -/
theorem scan_range_semantics (db : RocksDB) (start_key end_key : Bytes)
    (fill_cache : Bool) (cont : Bytes → Bytes → Bool) (cf : String)
    (p : String × KVList) (hs : KVSorted db.default_cf)
    (hcf : db.cfs.find? (fun q => q.1 = cf) = some p) (hps : KVSorted p.2) :
    (Iterable.new_iterator db (IterOption.new (some end_key) fill_cache)).entries
        = db.default_cf.filter (fun e => decide (e.1 < end_key))
    ∧ scan db start_key end_key fill_cache (collectCb cont) []
        = .ok (visitUpTo cont (db.default_cf.filter
            (fun e => decide (start_key ≤ e.1) && decide (e.1 < end_key))))
    ∧ scan_cf db cf start_key end_key fill_cache (collectCb cont) []
        = .ok (visitUpTo cont (p.2.filter
            (fun e => decide (start_key ≤ e.1) && decide (e.1 < end_key))))
    ∧ scan (Snapshot.new db) start_key end_key fill_cache (collectCb cont) []
        = scan db start_key end_key fill_cache (collectCb cont) [] := by
  have hresolve : get_cf_handle db cf = .ok cf := by
    simp [get_cf_handle, hcf]
  have hcfd : db.cfData cf = p.2 := by
    simp [RocksDB.cfData, hcf]
  refine ⟨rfl, ?_, ?_, rfl⟩
  · show scanLoop ((DBIterator.mk
        (db.default_cf.filter (fun e => decide (e.1 < end_key))) 0 none).seek
        start_key) (collectCb cont) [] = _
    rw [scanLoop_seek_collect _ start_key cont (List.Pairwise.filter _ hs)]
    rw [List.filter_filter]
  · show (do
      let it ← Iterable.new_iterator_cf db cf
        (IterOption.new (some end_key) fill_cache)
      scan_impl it start_key (collectCb cont) []) = _
    have hnewcf : Iterable.new_iterator_cf db cf
        (IterOption.new (some end_key) fill_cache)
        = .ok (DBIterator.mk
            (p.2.filter (fun e => decide (e.1 < end_key))) 0 none) := by
      show (do
        let handle ← get_cf_handle db cf
        return dbIterCfOpt db handle
          (IterOption.new (some end_key) fill_cache).build_read_opts) = _
      rw [hresolve]
      show Except.ok (dbIterCfOpt db cf
        (IterOption.new (some end_key) fill_cache).build_read_opts) = _
      rw [dbIterCfOpt]
      show Except.ok (DBIterator.ofOpts (db.cfData cf) _) = _
      rw [hcfd]
      rfl
    rw [hnewcf]
    show scanLoop ((DBIterator.mk
        (p.2.filter (fun e => decide (e.1 < end_key))) 0 none).seek
        start_key) (collectCb cont) [] = _
    rw [scanLoop_seek_collect _ start_key cont (List.Pairwise.filter _ hps)]
    rw [List.filter_filter]

/-- C4 witness: on the store `{a1↦v1, a2↦v2, b1↦w}` (keys `[97,49]`,
`[97,50]`, `[98,49]`), scanning `[[97], [98])` with an always-true
callback collects exactly the two `a*` pairs in ascending order. -/
theorem scan_range_semantics_witness :
    scan (RocksDB.mk [([97, 49], [1]), ([97, 50], [2]), ([98, 49], [3])]
        [("c", [])]) [97] [98] false (collectCb (fun _ _ => true)) []
      = .ok [([97, 49], [1]), ([97, 50], [2])] := by
  have h := (scan_range_semantics
    (RocksDB.mk [([97, 49], [1]), ([97, 50], [2]), ([98, 49], [3])]
      [("c", [])]) [97] [98] false (fun _ _ => true) "c" ("c", [])
    (by simp [KVSorted]; decide) (by simp) (by simp [KVSorted])).2.1
  rw [h]
  rfl

/-! ### C10: scan's result discipline -/

theorem scanLoop_error {σ : Type} (f : σ → Bytes → Bytes → EResult (Bool × σ)) :
    ∀ (n : Nat) (it : DBIterator) (s : σ), it.entries.length - it.pos ≤ n →
      ∀ e, scanLoop it f s = .error e → ∃ s2 k v, f s2 k v = .error e := by
  intro n
  induction n with
  | zero =>
    intro it s h e herr
    rw [scanLoop] at herr
    have hv : ¬ it.valid := by
      simp only [DBIterator.valid]
      simp only [decide_eq_true_eq]
      omega
    rw [dif_neg hv] at herr
    exact Except.noConfusion herr
  | succ n ih =>
    intro it s h e herr
    rw [scanLoop] at herr
    by_cases hv : it.valid = true
    · rw [dif_pos hv] at herr
      have hpos : it.pos < it.entries.length := by
        simpa [DBIterator.valid] using hv
      cases hf : f s it.key it.value with
      | error e2 =>
        rw [hf] at herr
        refine ⟨s, it.key, it.value, ?_⟩
        rw [hf]
        exact congrArg Except.error (Except.error.inj herr)
      | ok rs =>
        obtain ⟨r, s2⟩ := rs
        rw [hf] at herr
        dsimp only at herr
        by_cases hfa : it.failAfter = some it.pos
        · rw [DBIterator.next, if_pos hfa] at herr
          simp only [Bool.and_false] at herr
          rw [if_neg (by simp)] at herr
          exact Except.noConfusion herr
        · rw [DBIterator.next, if_neg hfa] at herr
          by_cases hg : (r && (DBIterator.mk it.entries (it.pos + 1)
              it.failAfter).valid) = true
          · rw [if_pos ?_] at herr
            · refine ih (DBIterator.mk it.entries (it.pos + 1) it.failAfter)
                s2 (by simp; omega) e ?_
              convert herr using 2
            · convert hg using 3
          · rw [if_neg ?_] at herr
            · exact Except.noConfusion herr
            · intro hc
              apply hg
              convert hc using 3
    · rw [dif_neg hv] at herr
      exact Except.noConfusion herr

/-- C10: `scan_impl` only ever propagates an error returned by the
callback — when the callback never errors, the result is `Ok` whether the
range was exhausted, the callback signalled false, or advancing the
cursor failed (the advance failure ends iteration silently); and
`scan_cf` additionally propagates only column-family resolution
failure. -/
theorem scan_error_policy {σ : Type} (it : DBIterator)
    (start_key end_key : Bytes) (fill_cache : Bool)
    (f : σ → Bytes → Bytes → EResult (Bool × σ)) (s : σ)
    (db : RocksDB) (cf : String) :
    ((∀ s2 k v, (f s2 k v).isOk = true) →
      (scan_impl it start_key f s).isOk = true)
    ∧ (∀ e, scan_impl it start_key f s = .error e →
        ∃ s2 k v, f s2 k v = .error e)
    ∧ ((db.cfs.find? (fun q => q.1 = cf)).isSome = false →
        scan_cf db cf start_key end_key fill_cache f s
          = .error (.cfNotFound cf)) := by
  have hprop : ∀ e, scan_impl it start_key f s = .error e →
      ∃ s2 k v, f s2 k v = .error e := by
    intro e herr
    rw [scan_impl] at herr
    exact scanLoop_error f (it.seek start_key).entries.length
      (it.seek start_key) s (by omega) e herr
  refine ⟨?_, hprop, ?_⟩
  · intro hf
    cases hres : scan_impl it start_key f s with
    | ok _ => rfl
    | error e =>
      obtain ⟨s2, k, v, hfe⟩ := hprop e hres
      have := hf s2 k v
      rw [hfe] at this
      exact Bool.noConfusion this
  · intro hnone
    show (do
      let it2 ← Iterable.new_iterator_cf db cf
        (IterOption.new (some end_key) fill_cache)
      scan_impl it2 start_key f s) = _
    have hfail : Iterable.new_iterator_cf db cf
        (IterOption.new (some end_key) fill_cache)
        = .error (.cfNotFound cf) := by
      show (do
        let handle ← get_cf_handle db cf
        return dbIterCfOpt db handle
          (IterOption.new (some end_key) fill_cache).build_read_opts) = _
      rw [get_cf_handle, if_neg (by simp [hnone])]
      rfl
    rw [hfail]
    rfl

/-- C10 witness: an iterator whose very first advance fails mid-range
still yields `Ok` with a callback that never errors. -/
theorem scan_error_policy_witness :
    (scan_impl (DBIterator.mk [([1], [2]), ([3], [4])] 0 (some 0)) []
      (fun (s : Nat) _ _ => (.ok (true, s) : EResult (Bool × Nat))) 0).isOk
      = true :=
  (scan_error_policy (DBIterator.mk [([1], [2]), ([3], [4])] 0 (some 0)) []
    [] false (fun (s : Nat) _ _ => (.ok (true, s) : EResult (Bool × Nat))) 0
    (RocksDB.mk [] []) "c").1 (fun _ _ _ => rfl)
